import Mathlib

/-!
Verification of the copy-to-clipboard repository (Python, 3 source files:
`copier.py`, `config.py`, `cli.py`) against its natural-language
specification.

The collection engine of `copier.py` is embedded shallowly:

* The filesystem rooted at the current working directory is a finite tree
  (`FSDir` / `FSFile`).  The content of a file is the text obtained from
  the read at `copier.py` lines 143-148 / 229-234; the `readable` flag is
  false when `open`/`read` raises an OS error (the `except` branches).
* `os.walk(base_dir)` with top-down in-place pruning of `dirnames`
  (lines 83-108) is `walkDir`/`walkSub`: the current directory is yielded
  first, then the surviving subdirectories are walked in order; a
  subdirectory named `.git` or one whose relative path (with a trailing
  slash) is matched by the ignore spec is never descended into.
* Paths are posix strings.  The base directory is `/`, so the resolved
  absolute path of the file at relative path `r` is `absOf r = "/" ++ r`
  and `relOf` inverts it (`os.path.relpath(p, base_dir)` for `p` under the
  base).  The explicit-files list from the configuration holds resolved
  absolute paths, as `config.py` line 74 stores them, so
  `str(Path(f).resolve())` on its members (line 81 of `copier.py`) is the
  identity and `explicit_files_abs` is the list itself.
* Three external engines are black-box function parameters, as the spec
  directs (§4.3, §9, non-goals): the compiled `pathspec` gitignore matcher
  (`ignoreSpec`), the `fnmatch.fnmatch` glob test (`fnmatchFn`), and the
  `tiktoken` encoding (`encoding`, mapping text to its token count).
* The Python `output` string, built by appending one
  `f"```{rel}\n{content}\n```\n\n"` block per added file to
  `"<code-sample>\n"` and closing with `"</code-sample>"`, is represented
  by the list of appended `(relative path, content)` pairs; `bundleOf`
  rebuilds the exact string, so the two views are concatenation-equal.
* Python `int` limits are `Option Int` (`None` = no limit); all running
  totals are naturals, exactly as they only ever grow from 0.
-/

/-- A regular file: its name, the text its bytes decode to under the
read of `copier.py` (UTF-8, errors ignored), and whether that read
succeeds (false models the `except Exception` branch of the `open`). -/
structure FSFile where
  name : String
  content : String
  readable : Bool
deriving Repr, DecidableEq

/-- A directory of the filesystem tree: its name, its subdirectories and
its regular files, both in the (deterministic) order `os.walk` reports. -/
inductive FSDir where
  | node (name : String) (subdirs : List FSDir) (files : List FSFile)
deriving Repr

/-- The name component of a directory. -/
def FSDir.name : FSDir → String
  | .node n _ _ => n

/-- The subdirectories of a directory. -/
def FSDir.subdirs : FSDir → List FSDir
  | .node _ ds _ => ds

/-- The regular files of a directory. -/
def FSDir.files : FSDir → List FSFile
  | .node _ _ fs => fs

/-- Joins a relative directory and an entry name (`os.path.join`), with the
root spelled `""` (the code turns `os.path.relpath(dirpath, base) == "."`
into the empty prefix, lines 85-89 of `copier.py`). -/
def joinRel (relDir name : String) : String :=
  if relDir = "" then name else relDir ++ "/" ++ name

/-- Resolved absolute path of the file at relative path `rel` under the
base directory `/` : models `str(Path(file_path).resolve())`. -/
def absOf (rel : String) : String :=
  "/" ++ rel

/-- Computes `os.path.relpath(p, base_dir)` for an absolute `p` under the base
directory `/`. -/
def relOf (p : String) : String :=
  p.drop 1

/-- Python's `s.startswith(p)`, written over the character lists so that
it evaluates by kernel reduction (`String.startsWith` is
extensionally the same test). -/
def strStartsWith (s p : String) : Bool :=
  p.data.isPrefixOf s.data

/-- The function `should_ignore` of `copier.py` (lines 36-42): paths are already posix
here, so it is the compiled `PathSpec.match_file` black box itself. -/
def should_ignore (relative_path : String) (spec : String → Bool) : Bool :=
  spec relative_path

/-- The function `matches_include_patterns` of `copier.py` (lines 45-52), with the
`fnmatch.fnmatch` glob engine abstracted as `fnmatchFn`. -/
def matches_include_patterns (fnmatchFn : String → String → Bool)
    (relative_path : String) (include_patterns : List String) : Bool :=
  include_patterns.any (fun pattern => fnmatchFn relative_path pattern)

/-- The `os.walk` traversal with the in-place pruning of lines 91-108 of
`copier.py`: yields `(relative dir path, its files)` for the current
directory, then walks each subdirectory that is neither named `.git`
(line 93-94) nor ignore-matched with a trailing slash (line 100). -/
def walkDir (spec : String → Bool) (relDir : String) : FSDir → List (String × List FSFile)
  | .node _ subdirs files => (relDir, files) :: walkSub spec relDir subdirs
where
  /-- Walks the surviving entries of a `dirnames` list in order. -/
  walkSub (spec : String → Bool) (relDir : String) : List FSDir → List (String × List FSFile)
    | [] => []
    | d :: ds =>
      (if d.name = ".git" then []
       else if should_ignore (joinRel relDir d.name ++ "/") spec then []
       else walkDir spec (joinRel relDir d.name) d) ++ walkSub spec relDir ds

/-- Every file of the tree with its relative path, with no pruning at
all: the filesystem as `Path(...).is_file()` and `open` see it in the
explicit-files pass, which is independent of the walk's pruning. -/
def allFilesDir (relDir : String) : FSDir → List (String × FSFile)
  | .node _ subdirs files =>
    files.map (fun f => (joinRel relDir f.name, f)) ++ allFilesSub relDir subdirs
where
  /-- Enumerates the files of a list of subtrees. -/
  allFilesSub (relDir : String) : List FSDir → List (String × FSFile)
    | [] => []
    | d :: ds => allFilesDir (joinRel relDir d.name) d ++ allFilesSub relDir ds

/-- Looks up the regular file at a relative path, searching the full
(unpruned) tree: models `Path(file_path).is_file()` plus the `open` of
the explicit-files pass. -/
def findFile (root : FSDir) (rel : String) : Option FSFile :=
  ((allFilesDir "" root).find? (fun e => e.1 == rel)).map (fun e => e.2)

/-- The fenced block `f"```{rel_file_posix}\n{content}\n```\n\n"` built
at lines 151 and 237 of `copier.py`. -/
def mkBlock (rel content : String) : String :=
  "```" ++ rel ++ "\n" ++ content ++ "\n```\n\n"

/-- Computes `content.count("\n") + 1`, the per-file line count of lines 163/186
(`"\n"` is a single character, so substring count is character count). -/
def lineCount (content : String) : Nat :=
  content.data.count '\n' + 1

/-- The test `limit is not None and total > limit` (the pre-addition budget tests
at lines 156, 166, 242, 252 of `copier.py`). -/
def exceedsLimit (limit : Option Int) (total : Nat) : Bool :=
  match limit with
  | some m => (total : Int) > m
  | none => false

/-- The test `limit is not None and total >= limit` (the post-addition stop tests
at lines 192-197 and 275-280 of `copier.py`). -/
def reachedLimit (limit : Option Int) (total : Nat) : Bool :=
  match limit with
  | some m => (total : Int) ≥ m
  | none => false

/-- The mutable locals of `collect_file_contents` (lines 68-76): the
appended blocks stand for the `output` string (see the header comment),
the rest are the running totals, the skip records and the
`included_files` dedup set (a list queried by membership). -/
structure CollectState where
  blocks : List (String × String)
  totalChars : Nat
  totalTokens : Nat
  filesAdded : Nat
  linesAdded : Nat
  filesSkipped : Nat
  linesSkipped : Nat
  skippedFiles : List String
  includedFiles : List String
deriving Repr, DecidableEq

/-- The initial state of a collection run. -/
def initState : CollectState :=
  { blocks := [], totalChars := 0, totalTokens := 0, filesAdded := 0,
    linesAdded := 0, filesSkipped := 0, linesSkipped := 0,
    skippedFiles := [], includedFiles := [] }

/-- The record-a-skip statements of lines 161-163 (identically 174-176,
247-249 and 257-259) of `copier.py`: the file's path joins the skipped
list, the skip counters grow, nothing else changes. -/
def skipUpd (st : CollectState) (rel content : String) : CollectState :=
  { st with filesSkipped := st.filesSkipped + 1,
            linesSkipped := st.linesSkipped + lineCount content,
            skippedFiles := st.skippedFiles ++ [rel] }

/-- The add-a-file statements of lines 180-189 (identically 263-272) of
`copier.py`: the block is appended and every running total plus the
dedup set is updated. -/
def addUpd (st : CollectState) (rel content : String) (file_tokens : Nat) :
    CollectState :=
  { st with blocks := st.blocks ++ [(rel, content)],
            totalChars := st.totalChars + (mkBlock rel content).length,
            totalTokens := st.totalTokens + file_tokens,
            filesAdded := st.filesAdded + 1,
            linesAdded := st.linesAdded + lineCount content,
            includedFiles := st.includedFiles ++ [rel] }

/-- The inputs of a collection run: the three black-box engines, the
filesystem, and the arguments of `collect_file_contents`. -/
structure CollectEnv where
  ignoreSpec : String → Bool
  fnmatchFn : String → String → Bool
  encoding : String → Nat
  root : FSDir
  include_patterns : List String
  explicit_files : List String
  max_files : Option Int
  max_chars : Option Int
  max_tokens : Option Int

/-- The body of the walk's `for filename in filenames` loop, lines
111-197 of `copier.py`, for one file.  Returns the updated state and
whether the loop `break`s after this file (the post-addition limit
checks).  Every `continue` is an unchanged state with no break. -/
def processWalkFile (env : CollectEnv) (relDir : String) (f : FSFile)
    (st : CollectState) : CollectState × Bool :=
  let rel := joinRel relDir f.name
  if rel == ".gitignore" || strStartsWith rel ".git/" then (st, false)
  else
    let fileAbs := absOf rel
    if should_ignore rel env.ignoreSpec && !env.explicit_files.contains fileAbs then
      (st, false)
    else if st.includedFiles.contains rel then (st, false)
    else if !matches_include_patterns env.fnmatchFn rel env.include_patterns
        && !env.explicit_files.contains fileAbs then (st, false)
    else if !f.readable then (st, false)
    else
      let content := f.content
      let file_content := mkBlock rel content
      let file_length := file_content.length
      let file_tokens := env.encoding file_content
      if exceedsLimit env.max_chars (st.totalChars + file_length) then
        (skipUpd st rel content, false)
      else if exceedsLimit env.max_tokens (st.totalTokens + file_tokens) then
        (skipUpd st rel content, false)
      else
        let st' := addUpd st rel content file_tokens
        (st', reachedLimit env.max_files st'.filesAdded
              || reachedLimit env.max_chars st'.totalChars
              || reachedLimit env.max_tokens st'.totalTokens)

/-- The walk's inner file loop over one directory's `filenames`: a
`break` abandons the remaining files of this directory only. -/
def processFiles (env : CollectEnv) (relDir : String) :
    List FSFile → CollectState → CollectState
  | [], st => st
  | f :: fs, st =>
    let r := processWalkFile env relDir f st
    if r.2 then r.1 else processFiles env relDir fs r.1

/-- The outer `for dirpath, dirnames, filenames in os.walk(...)` loop:
each walked directory's files are processed in turn.  The inner `break`
of lines 192-197 does not leave this loop, exactly as in the source. -/
def runWalk (env : CollectEnv) :
    List (String × List FSFile) → CollectState → CollectState
  | [], st => st
  | e :: es, st => runWalk env es (processFiles env e.1 e.2 st)

/-- The body of the explicit-files loop, lines 200-272 of `copier.py`,
for one configured absolute path.  `file_abs_path` (line 209) is computed
but never used afterwards in the source; the ignore test of lines 224-226
is an explicit no-op (`pass`).  Returns the updated state and whether the
loop `break`s (lines 275-280). -/
def processExplicitFile (env : CollectEnv) (file_path : String)
    (st : CollectState) : CollectState × Bool :=
  let rel := relOf file_path
  if rel == ".gitignore" || strStartsWith rel ".git/" then (st, false)
  else if st.includedFiles.contains rel then (st, false)
  else
    match findFile env.root rel with
    | none => (st, false)
    | some f =>
      if !f.readable then (st, false)
      else
        let content := f.content
        let file_content := mkBlock rel content
        let file_length := file_content.length
        let file_tokens := env.encoding file_content
        if exceedsLimit env.max_chars (st.totalChars + file_length) then
          (skipUpd st rel content, false)
        else if exceedsLimit env.max_tokens (st.totalTokens + file_tokens) then
          (skipUpd st rel content, false)
        else
          let st' := addUpd st rel content file_tokens
          (st', reachedLimit env.max_files st'.filesAdded
                || reachedLimit env.max_chars st'.totalChars
                || reachedLimit env.max_tokens st'.totalTokens)

/-- The `for file_path in explicit_files` loop of lines 200-280: here a
`break` leaves the whole loop. -/
def runExplicit (env : CollectEnv) :
    List String → CollectState → CollectState
  | [], st => st
  | p :: ps, st =>
    let r := processExplicitFile env p st
    if r.2 then r.1 else runExplicit env ps r.1

/-- The final state of `collect_file_contents`: the walk over the pruned
tree followed by the explicit-files pass. -/
def collect_state (env : CollectEnv) : CollectState :=
  runExplicit env env.explicit_files
    (runWalk env (walkDir env.ignoreSpec "" env.root) initState)

/-- Concatenation of the appended blocks, in order, as strings. -/
def concatBlocks : List (String × String) → String
  | [] => ""
  | b :: bs => mkBlock b.1 b.2 ++ concatBlocks bs

/-- The `output` string of `collect_file_contents`: the opening
`"<code-sample>\n"` (line 68), the appended blocks, and the closing
`"</code-sample>"` (line 282). -/
def bundleOf (st : CollectState) : String :=
  "<code-sample>\n" ++ concatBlocks st.blocks ++ "</code-sample>"

/-- The `summary` dictionary returned at lines 283-291 of `copier.py`. -/
structure Summary where
  files_added : Nat
  chars_copied : Nat
  tokens_copied : Nat
  lines_added : Nat
  files_skipped : Nat
  lines_skipped : Nat
  skipped_files : List String
deriving Repr, DecidableEq

/-- Reads the summary off the final state. -/
def summaryOf (st : CollectState) : Summary :=
  { files_added := st.filesAdded, chars_copied := st.totalChars,
    tokens_copied := st.totalTokens, lines_added := st.linesAdded,
    files_skipped := st.filesSkipped, lines_skipped := st.linesSkipped,
    skipped_files := st.skippedFiles }

/-- The function `collect_file_contents` of `copier.py` (lines 55-292): the bundle
string and the run summary. -/
def collect_file_contents (env : CollectEnv) : String × Summary :=
  let st := collect_state env
  (bundleOf st, summaryOf st)

/-- The function `perform_copy` of `copier.py` (lines 326-383), reduced to its
observable effect on the clipboard: `some bundle` when
`pyperclip.copy(file_contents)` runs (line 367), `none` when the
function returns early with an error message — no patterns nor explicit
files configured (lines 334-339), or zero files collected (lines
360-365). -/
def perform_copy (env : CollectEnv) : Option String :=
  if env.include_patterns.isEmpty && env.explicit_files.isEmpty then none
  else
    let r := collect_file_contents env
    if r.2.files_added == 0 then none
    else some r.1

/-- Every run of the walk's per-file body either leaves the state
untouched (one of the `continue` paths, or a `break` with no change —
which never happens, but the disjunction is enough), records a skip
caused by one of the two size budgets, or appends the file; in the last
case the path was not yet collected and is neither the ignore file nor
under `.git/`. -/
theorem processWalkFile_shape (env : CollectEnv) (relDir : String)
    (f : FSFile) (st : CollectState) :
    processWalkFile env relDir f st = (st, false) ∨
    (processWalkFile env relDir f st =
        (skipUpd st (joinRel relDir f.name) f.content, false) ∧
      (exceedsLimit env.max_chars
          (st.totalChars + (mkBlock (joinRel relDir f.name) f.content).length) = true ∨
        exceedsLimit env.max_tokens
          (st.totalTokens + env.encoding (mkBlock (joinRel relDir f.name) f.content)) = true)) ∨
    ((processWalkFile env relDir f st).1 =
        addUpd st (joinRel relDir f.name) f.content
          (env.encoding (mkBlock (joinRel relDir f.name) f.content)) ∧
      st.includedFiles.contains (joinRel relDir f.name) = false ∧
      (joinRel relDir f.name == ".gitignore"
        || strStartsWith (joinRel relDir f.name) ".git/") = false) := by
  simp only [processWalkFile]
  split_ifs <;> simp_all

/-- The same case analysis for the explicit-files per-file body. -/
theorem processExplicitFile_shape (env : CollectEnv) (p : String)
    (st : CollectState) :
    processExplicitFile env p st = (st, false) ∨
    (∃ f, findFile env.root (relOf p) = some f ∧
      processExplicitFile env p st = (skipUpd st (relOf p) f.content, false) ∧
      (exceedsLimit env.max_chars
          (st.totalChars + (mkBlock (relOf p) f.content).length) = true ∨
        exceedsLimit env.max_tokens
          (st.totalTokens + env.encoding (mkBlock (relOf p) f.content)) = true)) ∨
    (∃ f, findFile env.root (relOf p) = some f ∧
      (processExplicitFile env p st).1 =
        addUpd st (relOf p) f.content (env.encoding (mkBlock (relOf p) f.content)) ∧
      st.includedFiles.contains (relOf p) = false ∧
      (relOf p == ".gitignore" || strStartsWith (relOf p) ".git/") = false) := by
  rcases hf : findFile env.root (relOf p) with _ | f <;>
    simp only [processExplicitFile, hf] <;>
    split_ifs <;> simp_all

/-- A state predicate preserved by the walk's per-file body is preserved
by the file loop over one directory. -/
theorem processFiles_inv (env : CollectEnv) (P : CollectState → Prop)
    (hstep : ∀ relDir f st, P st → P (processWalkFile env relDir f st).1) :
    ∀ relDir fs st, P st → P (processFiles env relDir fs st) := by
  intro relDir fs
  induction fs with
  | nil => intro st h; simpa [processFiles] using h
  | cons f fs ih =>
    intro st h
    simp only [processFiles]
    split
    · exact hstep relDir f st h
    · exact ih _ (hstep relDir f st h)

/-- A state predicate preserved by the walk's per-file body is preserved
by the whole directory walk. -/
theorem runWalk_inv (env : CollectEnv) (P : CollectState → Prop)
    (hstep : ∀ relDir f st, P st → P (processWalkFile env relDir f st).1) :
    ∀ es st, P st → P (runWalk env es st) := by
  intro es
  induction es with
  | nil => intro st h; simpa [runWalk] using h
  | cons e es ih =>
    intro st h
    simp only [runWalk]
    exact ih _ (processFiles_inv env P hstep e.1 e.2 st h)

/-- A state predicate preserved by the explicit per-file body is
preserved by the explicit-files loop. -/
theorem runExplicit_inv (env : CollectEnv) (P : CollectState → Prop)
    (hstep : ∀ p st, P st → P (processExplicitFile env p st).1) :
    ∀ ps st, P st → P (runExplicit env ps st) := by
  intro ps
  induction ps with
  | nil => intro st h; simpa [runExplicit] using h
  | cons p ps ih =>
    intro st h
    simp only [runExplicit]
    split
    · exact hstep p st h
    · exact ih _ (hstep p st h)

/-- A state predicate holding initially and preserved by both per-file
bodies holds of the final state of any collection run. -/
theorem collect_state_inv (env : CollectEnv) (P : CollectState → Prop)
    (h0 : P initState)
    (hw : ∀ relDir f st, P st → P (processWalkFile env relDir f st).1)
    (he : ∀ p st, P st → P (processExplicitFile env p st).1) :
    P (collect_state env) := by
  unfold collect_state
  exact runExplicit_inv env P he _ _
    (runWalk_inv env P hw _ _ h0)

/-- Dedup invariant carried through a run: the relative paths of the
appended blocks are pairwise distinct, and each one is recorded in the
`included_files` set. -/
def DedupInv (st : CollectState) : Prop :=
  (st.blocks.map Prod.fst).Nodup ∧
  ∀ r ∈ st.blocks.map Prod.fst, r ∈ st.includedFiles

theorem dedupInv_init : DedupInv initState := by
  constructor <;> simp [initState]

theorem dedupInv_skipUpd (st : CollectState) (rel content : String)
    (h : DedupInv st) : DedupInv (skipUpd st rel content) := by
  simpa [DedupInv, skipUpd] using h

theorem dedupInv_addUpd (st : CollectState) (rel content : String) (toks : Nat)
    (hc : st.includedFiles.contains rel = false)
    (h : DedupInv st) : DedupInv (addUpd st rel content toks) := by
  obtain ⟨h1, h2⟩ := h
  have hni : rel ∉ st.includedFiles := by simp_all
  have hnb : rel ∉ st.blocks.map Prod.fst := fun hm => hni (h2 rel hm)
  constructor
  · have : (st.blocks.map Prod.fst ++ [rel]).Nodup := by
      rw [List.nodup_append]
      refine ⟨h1, List.nodup_singleton rel, ?_⟩
      intro a ha hb
      simp only [List.mem_singleton] at hb
      exact hnb (hb ▸ ha)
    simpa [addUpd] using this
  · intro r hr
    simp only [addUpd, List.map_append, List.mem_append, List.map_cons,
      List.map_nil, List.mem_singleton] at hr ⊢
    rcases hr with hr | hr
    · exact Or.inl (h2 r hr)
    · exact Or.inr (by simp [hr])

theorem dedupInv_walkStep (env : CollectEnv) (relDir : String) (f : FSFile)
    (st : CollectState) (h : DedupInv st) :
    DedupInv (processWalkFile env relDir f st).1 := by
  rcases processWalkFile_shape env relDir f st with h1 | ⟨h1, _⟩ | ⟨h1, hc, _⟩
  · rw [h1]; exact h
  · rw [h1]; exact dedupInv_skipUpd st _ _ h
  · rw [h1]; exact dedupInv_addUpd st _ _ _ hc h

theorem dedupInv_explicitStep (env : CollectEnv) (p : String)
    (st : CollectState) (h : DedupInv st) :
    DedupInv (processExplicitFile env p st).1 := by
  rcases processExplicitFile_shape env p st with h1 | ⟨f, _, h1, _⟩ | ⟨f, _, h1, hc, _⟩
  · rw [h1]; exact h
  · rw [h1]; exact dedupInv_skipUpd st _ _ h
  · rw [h1]; exact dedupInv_addUpd st _ _ _ hc h

/-- C2: in every collection run, each relative path contributes at most
one fenced block to the output bundle, however many include patterns it
matches and whether or not it is also explicitly listed. -/
theorem claim_C2 (env : CollectEnv) (r : String) :
    ((collect_state env).blocks.map Prod.fst).count r ≤ 1 := by
  have h := collect_state_inv env DedupInv dedupInv_init
    (dedupInv_walkStep env) (dedupInv_explicitStep env)
  exact List.nodup_iff_count_le_one.mp h.1 r

/-- The skipped-files counter always equals the length of the
skipped-files list. -/
def SkipInv (st : CollectState) : Prop :=
  st.filesSkipped = st.skippedFiles.length

theorem skipInv_init : SkipInv initState := by
  simp [SkipInv, initState]

theorem skipInv_walkStep (env : CollectEnv) (relDir : String) (f : FSFile)
    (st : CollectState) (h : SkipInv st) :
    SkipInv (processWalkFile env relDir f st).1 := by
  rcases processWalkFile_shape env relDir f st with h1 | ⟨h1, _⟩ | ⟨h1, _, _⟩ <;>
    rw [h1] <;> simpa [SkipInv, skipUpd, addUpd] using h

theorem skipInv_explicitStep (env : CollectEnv) (p : String)
    (st : CollectState) (h : SkipInv st) :
    SkipInv (processExplicitFile env p st).1 := by
  rcases processExplicitFile_shape env p st with h1 | ⟨f, _, h1, _⟩ | ⟨f, _, h1, _, _⟩ <;>
    rw [h1] <;> simpa [SkipInv, skipUpd, addUpd] using h

/-- In the walk's per-file body, the skipped-files list either stays
unchanged or grows by exactly the candidate's relative path — and the
latter happens only for a file that was read successfully, matched an
include pattern or the explicit set, and tripped the character or the
token budget. -/
theorem processWalkFile_skip_src (env : CollectEnv) (relDir : String)
    (f : FSFile) (st : CollectState) :
    (processWalkFile env relDir f st).1.skippedFiles = st.skippedFiles ∨
    ((processWalkFile env relDir f st).1.skippedFiles =
        st.skippedFiles ++ [joinRel relDir f.name] ∧
      f.readable = true ∧
      (matches_include_patterns env.fnmatchFn (joinRel relDir f.name)
          env.include_patterns = true ∨
        env.explicit_files.contains (absOf (joinRel relDir f.name)) = true) ∧
      (exceedsLimit env.max_chars
          (st.totalChars + (mkBlock (joinRel relDir f.name) f.content).length) = true ∨
        exceedsLimit env.max_tokens
          (st.totalTokens + env.encoding (mkBlock (joinRel relDir f.name) f.content)) = true)) := by
  simp only [processWalkFile]
  split_ifs <;> simp_all [skipUpd, addUpd, Bool.not_eq_false] <;>
    rcases hm : matches_include_patterns env.fnmatchFn (joinRel relDir f.name)
      env.include_patterns with _ | _ <;> simp_all

/-- The same for the explicit-files per-file body: the list grows only
by the candidate's path, for an existing file that was read
successfully and tripped one of the two budgets. -/
theorem processExplicitFile_skip_src (env : CollectEnv) (p : String)
    (st : CollectState) :
    (processExplicitFile env p st).1.skippedFiles = st.skippedFiles ∨
    (∃ f, findFile env.root (relOf p) = some f ∧
      (processExplicitFile env p st).1.skippedFiles =
        st.skippedFiles ++ [relOf p] ∧
      f.readable = true ∧
      (exceedsLimit env.max_chars
          (st.totalChars + (mkBlock (relOf p) f.content).length) = true ∨
        exceedsLimit env.max_tokens
          (st.totalTokens + env.encoding (mkBlock (relOf p) f.content)) = true)) := by
  rcases hf : findFile env.root (relOf p) with _ | f <;>
    simp only [processExplicitFile, hf] <;>
    split_ifs <;> simp_all [skipUpd, addUpd]

/-- C9: the summary is internally consistent: in every run,
`files_skipped` equals the length of the `skipped_files` list; and an
entry ever joins that list only through the character or token budget
checks — each per-file body either leaves the list unchanged or appends
exactly the candidate's path, and in that case the file had been read
successfully, had (in the walk) matched an include pattern or the
explicit set, and had tripped one of the two budgets.  Files that fail
to open or that do not match are never counted as skipped. -/
theorem claim_C9 (env : CollectEnv) :
    ((collect_file_contents env).2.files_skipped =
      (collect_file_contents env).2.skipped_files.length) ∧
    (∀ relDir (f : FSFile) (st : CollectState),
      (processWalkFile env relDir f st).1.skippedFiles = st.skippedFiles ∨
      ((processWalkFile env relDir f st).1.skippedFiles =
          st.skippedFiles ++ [joinRel relDir f.name] ∧
        f.readable = true ∧
        (matches_include_patterns env.fnmatchFn (joinRel relDir f.name)
            env.include_patterns = true ∨
          env.explicit_files.contains (absOf (joinRel relDir f.name)) = true) ∧
        (exceedsLimit env.max_chars
            (st.totalChars + (mkBlock (joinRel relDir f.name) f.content).length) = true ∨
          exceedsLimit env.max_tokens
            (st.totalTokens
              + env.encoding (mkBlock (joinRel relDir f.name) f.content)) = true))) ∧
    (∀ (p : String) (st : CollectState),
      (processExplicitFile env p st).1.skippedFiles = st.skippedFiles ∨
      (∃ f, findFile env.root (relOf p) = some f ∧
        (processExplicitFile env p st).1.skippedFiles =
          st.skippedFiles ++ [relOf p] ∧
        f.readable = true ∧
        (exceedsLimit env.max_chars
            (st.totalChars + (mkBlock (relOf p) f.content).length) = true ∨
          exceedsLimit env.max_tokens
            (st.totalTokens + env.encoding (mkBlock (relOf p) f.content)) = true))) := by
  refine ⟨?_, ?_, ?_⟩
  · have h1 := collect_state_inv env SkipInv skipInv_init
      (skipInv_walkStep env) (skipInv_explicitStep env)
    simpa [collect_file_contents, summaryOf, SkipInv] using h1
  · intro relDir f st
    exact processWalkFile_skip_src env relDir f st
  · intro p st
    exact processExplicitFile_skip_src env p st

/-- The total character length of the appended blocks. -/
def blocksChars (bs : List (String × String)) : Nat :=
  (bs.map (fun b => (mkBlock b.1 b.2).length)).sum

/-- The running character total always equals the summed length of the
blocks appended so far. -/
def CharsInv (st : CollectState) : Prop :=
  st.totalChars = blocksChars st.blocks

theorem charsInv_init : CharsInv initState := by
  simp [CharsInv, initState, blocksChars]

theorem charsInv_walkStep (env : CollectEnv) (relDir : String) (f : FSFile)
    (st : CollectState) (h : CharsInv st) :
    CharsInv (processWalkFile env relDir f st).1 := by
  rcases processWalkFile_shape env relDir f st with h1 | ⟨h1, _⟩ | ⟨h1, _, _⟩ <;>
    rw [h1] <;>
    simpa [CharsInv, skipUpd, addUpd, blocksChars] using h

theorem charsInv_explicitStep (env : CollectEnv) (p : String)
    (st : CollectState) (h : CharsInv st) :
    CharsInv (processExplicitFile env p st).1 := by
  rcases processExplicitFile_shape env p st with h1 | ⟨f, _, h1, _⟩ | ⟨f, _, h1, _, _⟩ <;>
    rw [h1] <;>
    simpa [CharsInv, skipUpd, addUpd, blocksChars] using h

theorem concatBlocks_length (bs : List (String × String)) :
    (concatBlocks bs).length = blocksChars bs := by
  induction bs with
  | nil => simp [concatBlocks, blocksChars]
  | cons b bs ih => simp [concatBlocks, blocksChars, ih]

/-- C10: the bundle's character length is the summary's `chars_copied`
plus the 28 characters of the fixed outer delimiter pair (the opening
line and the closing tag each measure 14 characters). -/
theorem claim_C10 (env : CollectEnv) :
    (collect_file_contents env).1.length =
      (collect_file_contents env).2.chars_copied + 28 := by
  have h := collect_state_inv env CharsInv charsInv_init
    (charsInv_walkStep env) (charsInv_explicitStep env)
  simp only [CharsInv] at h
  have e1 : ("<code-sample>\n" : String).length = 14 := rfl
  have e2 : ("</code-sample>" : String).length = 14 := rfl
  simp [collect_file_contents, bundleOf, summaryOf, concatBlocks_length, h, e1, e2]
  omega

/-- Fixture for the `max_files` stop behaviour: no ignore rules, an
include pattern matching everything, two sibling directories each
holding one matching file, and `max_files = 1`. -/
def envMaxFiles : CollectEnv :=
  { ignoreSpec := fun _ => false,
    fnmatchFn := fun _ _ => true,
    encoding := fun _ => 0,
    root := .node "" [.node "d1" [] [⟨"f1.txt", "x", true⟩],
                      .node "d2" [] [⟨"f2.txt", "y", true⟩]] [],
    include_patterns := ["*"],
    explicit_files := [],
    max_files := some 1, max_chars := none, max_tokens := none }

/-- C1 (code bug): with `max_files = 1` and one matching file in each of
two directories, the run appends both files — the post-addition `break`
of `copier.py` lines 192-197 leaves only the inner per-directory file
loop, not the `os.walk` loop, so the walk does not stop and
`files_added = 2` exceeds the limit. -/
theorem claim_C1_code_eval :
    envMaxFiles.max_files = some 1 ∧
    (collect_file_contents envMaxFiles).2.files_added = 2 ∧
    (collect_state envMaxFiles).blocks =
      [("d1/f1.txt", "x"), ("d2/f2.txt", "y")] := by
  refine ⟨rfl, by decide, by decide⟩

/-- C3: for every candidate file that reaches the budget stage (not an
excluded name, not ignore-skipped, not a duplicate, include- or
explicitly-matched, and readable), the checks run in a fixed order:
a character-budget overflow records the file as skipped and scanning
continues (no break); otherwise a token-budget overflow does the same;
otherwise the file is appended and every running total is updated.  The
same holds in the explicit-files pass. -/
theorem claim_C3 (env : CollectEnv) :
    (∀ relDir (f : FSFile) (st : CollectState),
      (joinRel relDir f.name == ".gitignore"
        || strStartsWith (joinRel relDir f.name) ".git/") = false →
      (should_ignore (joinRel relDir f.name) env.ignoreSpec
        && !env.explicit_files.contains (absOf (joinRel relDir f.name))) = false →
      st.includedFiles.contains (joinRel relDir f.name) = false →
      (!matches_include_patterns env.fnmatchFn (joinRel relDir f.name) env.include_patterns
        && !env.explicit_files.contains (absOf (joinRel relDir f.name))) = false →
      f.readable = true →
      ((exceedsLimit env.max_chars
          (st.totalChars + (mkBlock (joinRel relDir f.name) f.content).length) = true →
        processWalkFile env relDir f st =
          (skipUpd st (joinRel relDir f.name) f.content, false)) ∧
      (exceedsLimit env.max_chars
          (st.totalChars + (mkBlock (joinRel relDir f.name) f.content).length) = false →
        exceedsLimit env.max_tokens
          (st.totalTokens + env.encoding (mkBlock (joinRel relDir f.name) f.content)) = true →
        processWalkFile env relDir f st =
          (skipUpd st (joinRel relDir f.name) f.content, false)) ∧
      (exceedsLimit env.max_chars
          (st.totalChars + (mkBlock (joinRel relDir f.name) f.content).length) = false →
        exceedsLimit env.max_tokens
          (st.totalTokens + env.encoding (mkBlock (joinRel relDir f.name) f.content)) = false →
        (processWalkFile env relDir f st).1 =
          addUpd st (joinRel relDir f.name) f.content
            (env.encoding (mkBlock (joinRel relDir f.name) f.content))))) ∧
    (∀ (p : String) (f : FSFile) (st : CollectState),
      (relOf p == ".gitignore" || strStartsWith (relOf p) ".git/") = false →
      st.includedFiles.contains (relOf p) = false →
      findFile env.root (relOf p) = some f →
      f.readable = true →
      ((exceedsLimit env.max_chars
          (st.totalChars + (mkBlock (relOf p) f.content).length) = true →
        processExplicitFile env p st = (skipUpd st (relOf p) f.content, false)) ∧
      (exceedsLimit env.max_chars
          (st.totalChars + (mkBlock (relOf p) f.content).length) = false →
        exceedsLimit env.max_tokens
          (st.totalTokens + env.encoding (mkBlock (relOf p) f.content)) = true →
        processExplicitFile env p st = (skipUpd st (relOf p) f.content, false)) ∧
      (exceedsLimit env.max_chars
          (st.totalChars + (mkBlock (relOf p) f.content).length) = false →
        exceedsLimit env.max_tokens
          (st.totalTokens + env.encoding (mkBlock (relOf p) f.content)) = false →
        (processExplicitFile env p st).1 =
          addUpd st (relOf p) f.content
            (env.encoding (mkBlock (relOf p) f.content))))) := by
  constructor
  · intro relDir f st h1 h2 h3 h4 h5
    refine ⟨fun hc => ?_, fun hc ht => ?_, fun hc ht => ?_⟩ <;>
      simp_all [processWalkFile] <;>
      rw [if_neg (by tauto), if_neg (by tauto)]
  · intro p f st h1 h3 hf h5
    refine ⟨fun hc => ?_, fun hc ht => ?_, fun hc ht => ?_⟩ <;>
      simp_all [processExplicitFile]

/-- Fixture exercising the character-budget skip path: one readable
matching file and `max_chars = 0`. -/
def envCharSkip : CollectEnv :=
  { ignoreSpec := fun _ => false,
    fnmatchFn := fun _ _ => true,
    encoding := fun _ => 0,
    root := .node "" [] [⟨"a.txt", "hi", true⟩],
    include_patterns := ["*"],
    explicit_files := [],
    max_files := none, max_chars := some 0, max_tokens := none }

theorem claim_C3_witness :
    processWalkFile envCharSkip "" ⟨"a.txt", "hi", true⟩ initState =
      (skipUpd initState "a.txt" "hi", false) :=
  ((claim_C3 envCharSkip).1 "" ⟨"a.txt", "hi", true⟩ initState (by decide)
    (by decide) (by decide) (by decide) (by decide)).1 (by decide)

/-- With no include patterns and no explicit files, the walk's per-file
body never changes the state: every file falls through the
matches-nothing check. -/
theorem processWalkFile_no_config (env : CollectEnv)
    (hi : env.include_patterns = []) (he : env.explicit_files = [])
    (relDir : String) (f : FSFile) (st : CollectState) :
    processWalkFile env relDir f st = (st, false) := by
  simp only [processWalkFile, hi, he]
  split_ifs <;> simp_all [matches_include_patterns]

theorem processFiles_no_config (env : CollectEnv)
    (hi : env.include_patterns = []) (he : env.explicit_files = [])
    (relDir : String) : ∀ fs st, processFiles env relDir fs st = st := by
  intro fs
  induction fs with
  | nil => intro st; simp [processFiles]
  | cons f fs ih =>
    intro st
    simp [processFiles, processWalkFile_no_config env hi he, ih]

theorem runWalk_no_config (env : CollectEnv)
    (hi : env.include_patterns = []) (he : env.explicit_files = []) :
    ∀ es st, runWalk env es st = st := by
  intro es
  induction es with
  | nil => intro st; simp [runWalk]
  | cons e es ih =>
    intro st
    simp [runWalk, processFiles_no_config env hi he, ih]

/-- With an empty configuration, a collection run adds nothing. -/
theorem collect_no_config (env : CollectEnv)
    (hi : env.include_patterns = []) (he : env.explicit_files = []) :
    (collect_file_contents env).2.files_added = 0 := by
  unfold collect_file_contents collect_state
  rw [he]
  simp [runExplicit, runWalk_no_config env hi he, summaryOf, initState]

/-- C4: the copy operation reaches the clipboard write exactly when the
collection run adds at least one file; with nothing configured (no
patterns and no explicit files) it aborts without writing. -/
theorem claim_C4 (env : CollectEnv) :
    ((perform_copy env).isSome ↔
      0 < (collect_file_contents env).2.files_added) ∧
    (env.include_patterns = [] → env.explicit_files = [] →
      perform_copy env = none) := by
  constructor
  · unfold perform_copy
    by_cases hie : (env.include_patterns.isEmpty && env.explicit_files.isEmpty) = true
    · have hi : env.include_patterns = [] := by
        simp only [Bool.and_eq_true, List.isEmpty_iff] at hie
        exact hie.1
      have he : env.explicit_files = [] := by
        simp only [Bool.and_eq_true, List.isEmpty_iff] at hie
        exact hie.2
      simp [hie, collect_no_config env hi he]
    · simp only [Bool.not_eq_true] at hie
      simp only [hie, Bool.false_eq_true, if_false]
      split_ifs with h
      · simp_all
      · simp_all [Nat.pos_of_ne_zero]
  · intro hi he
    simp [perform_copy, hi, he]

/-- Fixture with an empty configuration. -/
def envNoConfig : CollectEnv :=
  { ignoreSpec := fun _ => false,
    fnmatchFn := fun _ _ => true,
    encoding := fun _ => 0,
    root := .node "" [] [⟨"a.txt", "hi", true⟩],
    include_patterns := [],
    explicit_files := [],
    max_files := none, max_chars := none, max_tokens := none }

theorem claim_C4_witness : perform_copy envNoConfig = none :=
  (claim_C4 envNoConfig).2 rfl rfl

/-- Fixture exercising skip provenance: an unreadable matching file, a
non-matching file, and a readable matching file against a zero
character budget — only the last is recorded as skipped. -/
def envSkipKinds : CollectEnv :=
  { ignoreSpec := fun _ => false,
    fnmatchFn := fun r p => r == p,
    encoding := fun _ => 0,
    root := .node "" [] [⟨"bad.txt", "x", false⟩, ⟨"no.md", "y", true⟩,
                         ⟨"a.txt", "hi", true⟩],
    include_patterns := ["bad.txt", "a.txt"],
    explicit_files := [],
    max_files := none, max_chars := some 0, max_tokens := none }

theorem claim_C9_witness :
    (collect_file_contents envSkipKinds).2.files_skipped =
      (collect_file_contents envSkipKinds).2.skipped_files.length ∧
    (collect_file_contents envSkipKinds).2.skipped_files = ["a.txt"] ∧
    (collect_file_contents envSkipKinds).2.files_skipped = 1 ∧
    (collect_file_contents envSkipKinds).2.files_added = 0 :=
  ⟨(claim_C9 envSkipKinds).1, by decide, by decide, by decide⟩

/-- Dropping the `.git` entries from a `dirnames` list leaves the walk
unchanged: the traversal never descends into them in any case,
whatever the ignore rules say. -/
theorem walkSub_git_pruned (spec : String → Bool) (relDir : String) :
    ∀ subdirs : List FSDir,
      walkDir.walkSub spec relDir subdirs =
        walkDir.walkSub spec relDir
          (subdirs.filter (fun d => !(d.name == ".git"))) := by
  intro subdirs
  induction subdirs with
  | nil => simp [walkDir.walkSub]
  | cons d ds ih =>
    by_cases hd : d.name = ".git"
    · simp [walkDir.walkSub, hd, ih]
    · simp [walkDir.walkSub, hd, ih]

/-- No appended block is the ignore file or lies under `.git/`. -/
def GitFreeInv (st : CollectState) : Prop :=
  ∀ b ∈ st.blocks, (b.1 == ".gitignore" || strStartsWith b.1 ".git/") = false

theorem gitFreeInv_init : GitFreeInv initState := by
  simp [GitFreeInv, initState]

theorem gitFreeInv_skipUpd (st : CollectState) (rel content : String)
    (h : GitFreeInv st) : GitFreeInv (skipUpd st rel content) := by
  simpa [GitFreeInv, skipUpd] using h

theorem gitFreeInv_addUpd (st : CollectState) (rel content : String) (toks : Nat)
    (hg : (rel == ".gitignore" || strStartsWith rel ".git/") = false)
    (h : GitFreeInv st) : GitFreeInv (addUpd st rel content toks) := by
  intro b hb
  simp only [addUpd, List.mem_append, List.mem_singleton] at hb
  rcases hb with hb | hb
  · exact h b hb
  · subst hb
    exact hg

theorem gitFreeInv_walkStep (env : CollectEnv) (relDir : String) (f : FSFile)
    (st : CollectState) (h : GitFreeInv st) :
    GitFreeInv (processWalkFile env relDir f st).1 := by
  rcases processWalkFile_shape env relDir f st with h1 | ⟨h1, _⟩ | ⟨h1, _, hg⟩
  · rw [h1]; exact h
  · rw [h1]; exact gitFreeInv_skipUpd st _ _ h
  · rw [h1]; exact gitFreeInv_addUpd st _ _ _ hg h

theorem gitFreeInv_explicitStep (env : CollectEnv) (p : String)
    (st : CollectState) (h : GitFreeInv st) :
    GitFreeInv (processExplicitFile env p st).1 := by
  rcases processExplicitFile_shape env p st with
    h1 | ⟨f, _, h1, _⟩ | ⟨f, _, h1, _, hg⟩
  · rw [h1]; exact h
  · rw [h1]; exact gitFreeInv_skipUpd st _ _ h
  · rw [h1]; exact gitFreeInv_addUpd st _ _ _ hg h

/-- C8: `.git` directories are pruned from the traversal regardless of
the ignore rules (removing them from any directory listing does not
change the walk), and no block of the output bundle is the ignore file
or a path under `.git/`, however the include patterns and the
explicit-files set are chosen. -/
theorem claim_C8 (env : CollectEnv) :
    (∀ relDir subdirs,
      walkDir.walkSub env.ignoreSpec relDir subdirs =
        walkDir.walkSub env.ignoreSpec relDir
          (subdirs.filter (fun d => !(d.name == ".git")))) ∧
    (∀ b ∈ (collect_state env).blocks,
      (b.1 == ".gitignore" || strStartsWith b.1 ".git/") = false) := by
  constructor
  · exact walkSub_git_pruned env.ignoreSpec
  · exact collect_state_inv env GitFreeInv gitFreeInv_init
      (gitFreeInv_walkStep env) (gitFreeInv_explicitStep env)

theorem claim_C8_witness :
    ("d1/f1.txt", "x") ∈ (collect_state envMaxFiles).blocks ∧
    (("d1/f1.txt" : String) == ".gitignore"
      || strStartsWith "d1/f1.txt" ".git/") = false :=
  ⟨by decide, (claim_C8 envMaxFiles).2 ("d1/f1.txt", "x") (by decide)⟩

/-- Fixture for C5's counterexample: the only file is ignore-matched and
explicitly listed, but the character budget is zero. -/
def envIgnoredExplicitTight : CollectEnv :=
  { ignoreSpec := fun r => r == "a.txt",
    fnmatchFn := fun _ _ => false,
    encoding := fun _ => 0,
    root := .node "" [] [⟨"a.txt", "hi", true⟩],
    include_patterns := [],
    explicit_files := ["/a.txt"],
    max_files := none, max_chars := some 0, max_tokens := none }

/-- C5 counterexample: a file encountered by the walk, matched by the
ignore rules, whose resolved absolute path is in the explicit-files
set — yet the bundle ends empty, because the zero character budget
skips it in both passes.  So "included in the bundle iff explicitly
listed" fails in the only-if-to-if direction as stated. -/
theorem claim_C5_counterexample :
    should_ignore "a.txt" envIgnoredExplicitTight.ignoreSpec = true ∧
    envIgnoredExplicitTight.explicit_files.contains (absOf "a.txt") = true ∧
    ("", [⟨"a.txt", "hi", true⟩]) ∈
      walkDir envIgnoredExplicitTight.ignoreSpec "" envIgnoredExplicitTight.root ∧
    (collect_state envIgnoredExplicitTight).blocks = [] := by
  refine ⟨rfl, by decide, by decide, by decide⟩

/-- C5 (amended): (i) a walked ignore-matched file whose resolved
absolute path is not in the explicit-files set contributes nothing, so
a glob include pattern never overrides an ignore match; (ii) a walked
ignore-matched file that is in the explicit-files set is appended,
provided it is not an excluded name, not yet collected, readable, and
within the character and token budgets; (iii) a file of the full tree —
also one inside a pruned directory — is appended by the explicit pass
under the same provisos, irrespective of the walk's pruning. -/
theorem claim_C5 (env : CollectEnv) :
    (∀ relDir (f : FSFile) (st : CollectState),
      should_ignore (joinRel relDir f.name) env.ignoreSpec = true →
      env.explicit_files.contains (absOf (joinRel relDir f.name)) = false →
      processWalkFile env relDir f st = (st, false)) ∧
    (∀ relDir (f : FSFile) (st : CollectState),
      (joinRel relDir f.name == ".gitignore"
        || strStartsWith (joinRel relDir f.name) ".git/") = false →
      should_ignore (joinRel relDir f.name) env.ignoreSpec = true →
      env.explicit_files.contains (absOf (joinRel relDir f.name)) = true →
      st.includedFiles.contains (joinRel relDir f.name) = false →
      f.readable = true →
      exceedsLimit env.max_chars
        (st.totalChars + (mkBlock (joinRel relDir f.name) f.content).length) = false →
      exceedsLimit env.max_tokens
        (st.totalTokens + env.encoding (mkBlock (joinRel relDir f.name) f.content)) = false →
      (processWalkFile env relDir f st).1 =
        addUpd st (joinRel relDir f.name) f.content
          (env.encoding (mkBlock (joinRel relDir f.name) f.content))) ∧
    (∀ (p : String) (f : FSFile) (st : CollectState),
      (relOf p == ".gitignore" || strStartsWith (relOf p) ".git/") = false →
      st.includedFiles.contains (relOf p) = false →
      findFile env.root (relOf p) = some f →
      f.readable = true →
      exceedsLimit env.max_chars
        (st.totalChars + (mkBlock (relOf p) f.content).length) = false →
      exceedsLimit env.max_tokens
        (st.totalTokens + env.encoding (mkBlock (relOf p) f.content)) = false →
      (processExplicitFile env p st).1 =
        addUpd st (relOf p) f.content
          (env.encoding (mkBlock (relOf p) f.content))) := by
  refine ⟨?_, ?_, ?_⟩
  · intro relDir f st hig hnc
    simp only [processWalkFile]
    split_ifs <;> simp_all
  · intro relDir f st h1 hig hce h3 h5 hc ht
    simp_all [processWalkFile]
  · intro p f st h1 h3 hf h5 hc ht
    simp_all [processExplicitFile]

/-- Fixture for C5 (i): the file is ignore-matched, not explicit, and
the include pattern matches everything. -/
def envGlobVsIgnore : CollectEnv :=
  { ignoreSpec := fun r => r == "a.txt",
    fnmatchFn := fun _ _ => true,
    encoding := fun _ => 0,
    root := .node "" [] [⟨"a.txt", "hi", true⟩],
    include_patterns := ["*"],
    explicit_files := [],
    max_files := none, max_chars := none, max_tokens := none }

/-- Fixture for C5 (ii): the file is ignore-matched and explicitly
listed, with no budgets. -/
def envIgnoredExplicit : CollectEnv :=
  { ignoreSpec := fun r => r == "a.txt",
    fnmatchFn := fun _ _ => false,
    encoding := fun _ => 0,
    root := .node "" [] [⟨"a.txt", "hi", true⟩],
    include_patterns := [],
    explicit_files := ["/a.txt"],
    max_files := none, max_chars := none, max_tokens := none }

/-- Fixture for C5 (iii): the explicit file sits in a directory the
walk prunes. -/
def envPrunedExplicit : CollectEnv :=
  { ignoreSpec := fun r => r == "sub/",
    fnmatchFn := fun _ _ => false,
    encoding := fun _ => 0,
    root := .node "" [.node "sub" [] [⟨"b.txt", "z", true⟩]] [],
    include_patterns := [],
    explicit_files := ["/sub/b.txt"],
    max_files := none, max_chars := none, max_tokens := none }

theorem claim_C5_witness :
    processWalkFile envGlobVsIgnore "" ⟨"a.txt", "hi", true⟩ initState =
      (initState, false) ∧
    (processWalkFile envIgnoredExplicit "" ⟨"a.txt", "hi", true⟩ initState).1 =
      addUpd initState "a.txt" "hi" 0 ∧
    (processExplicitFile envPrunedExplicit "/sub/b.txt" initState).1 =
      addUpd initState "sub/b.txt" "z" 0 ∧
    walkDir envPrunedExplicit.ignoreSpec "" envPrunedExplicit.root = [("", [])] ∧
    (collect_state envPrunedExplicit).blocks = [("sub/b.txt", "z")] :=
  ⟨(claim_C5 envGlobVsIgnore).1 "" ⟨"a.txt", "hi", true⟩ initState rfl rfl,
   (claim_C5 envIgnoredExplicit).2.1 "" ⟨"a.txt", "hi", true⟩ initState
     (by decide) rfl (by decide) (by decide) rfl (by decide) (by decide),
   (claim_C5 envPrunedExplicit).2.2 "/sub/b.txt" ⟨"b.txt", "z", true⟩ initState
     (by decide) (by decide) (by decide) rfl (by decide) (by decide),
   by decide, by decide⟩

/-- Python's `pattern.strip()`: leading and trailing whitespace removed,
written over the character list so that it evaluates by kernel
reduction. -/
def pyStrip (s : String) : String :=
  ⟨((s.data.dropWhile Char.isWhitespace).reverse.dropWhile Char.isWhitespace).reverse⟩

/-- Python's `char in pattern` for a one-character needle
(kernel-reducible form of `String.contains`). -/
def strContainsChar (pattern : String) (char : Char) : Bool :=
  pattern.data.contains char

/-- The persisted configuration of `config.py`: the two ordered lists
of the JSON object (`include_patterns`, `explicit_files`). -/
structure Config where
  include_patterns : List String
  explicit_files : List String
deriving Repr, DecidableEq

/-- The function `is_glob_pattern` of `config.py` (lines 50-54). -/
def is_glob_pattern (pattern : String) : Bool :=
  ['*', '?', '[', ']'].any (fun char => strContainsChar pattern char)

/-- One iteration of the `for pattern in patterns` loop of
`add_patterns` (`config.py` lines 65-79): strip, classify, and append
only when absent.  `Path(normalized).resolve()` is the black-box
`resolve` parameter. -/
def add_one (resolve : String → String) (config : Config) (pattern : String) :
    Config :=
  let normalized := pyStrip pattern
  if is_glob_pattern normalized then
    if !config.include_patterns.contains normalized then
      { config with include_patterns := config.include_patterns ++ [normalized] }
    else config
  else
    let absolute_path := resolve normalized
    if !config.explicit_files.contains absolute_path then
      { config with explicit_files := config.explicit_files ++ [absolute_path] }
    else config

/-- The function `add_patterns` of `config.py` (lines 57-90), as the transformation
of the loaded configuration (the JSON persistence and the printed
report are outside the embedding). -/
def add_patterns (resolve : String → String) (config : Config)
    (patterns : List String) : Config :=
  patterns.foldl (add_one resolve) config

theorem add_one_idem (resolve : String → String) (config : Config)
    (p : String) :
    add_one resolve (add_one resolve config p) p = add_one resolve config p := by
  by_cases hg : is_glob_pattern (pyStrip p)
  · by_cases hc : pyStrip p ∈ config.include_patterns
    · simp [add_one, hg, hc]
    · simp [add_one, hg, hc]
  · by_cases hc : resolve (pyStrip p) ∈ config.explicit_files
    · simp [add_one, hg, hc]
    · simp [add_one, hg, hc]

/-- C6: `add` deduplicates — adding the same entry twice is the same as
adding it once; a glob pattern (compared verbatim after stripping) ends
up with exactly one occurrence, and an explicit path (compared by
resolved absolute path, whatever the spelling) is stored once. -/
theorem claim_C6 (resolve : String → String) (config : Config) :
    (∀ p, add_patterns resolve (add_patterns resolve config [p]) [p] =
      add_patterns resolve config [p]) ∧
    (∀ p, is_glob_pattern (pyStrip p) = true →
      config.include_patterns.count (pyStrip p) ≤ 1 →
      (add_patterns resolve config [p, p]).include_patterns.count (pyStrip p) = 1) ∧
    (∀ p q, is_glob_pattern (pyStrip p) = false →
      is_glob_pattern (pyStrip q) = false →
      resolve (pyStrip q) = resolve (pyStrip p) →
      config.explicit_files.count (resolve (pyStrip p)) ≤ 1 →
      (add_patterns resolve config [p, q]).explicit_files.count
        (resolve (pyStrip p)) = 1) := by
  refine ⟨?_, ?_, ?_⟩
  · intro p
    simp only [add_patterns, List.foldl]
    exact add_one_idem resolve config p
  · intro p hg hcount
    by_cases hc : pyStrip p ∈ config.include_patterns
    · have h1 : 0 < config.include_patterns.count (pyStrip p) :=
        List.count_pos_iff.mpr hc
      simp [add_patterns, add_one, hg, hc]
      omega
    · have h0 : config.include_patterns.count (pyStrip p) = 0 :=
        List.count_eq_zero.mpr hc
      simp [add_patterns, add_one, hg, hc, List.count_append, h0]
  · intro p q hgp hgq hres hcount
    by_cases hc : resolve (pyStrip p) ∈ config.explicit_files
    · have h1 : 0 < config.explicit_files.count (resolve (pyStrip p)) :=
        List.count_pos_iff.mpr hc
      simp [add_patterns, add_one, hgp, hgq, hres, hc]
      omega
    · have h0 : config.explicit_files.count (resolve (pyStrip p)) = 0 :=
        List.count_eq_zero.mpr hc
      simp [add_patterns, add_one, hgp, hgq, hres, hc, List.count_append, h0]

theorem claim_C6_witness :
    (add_patterns (fun _ => "/abs/a.txt") (Config.mk [] [])
      ["*.txt", "*.txt"]).include_patterns.count "*.txt" = 1 ∧
    (add_patterns (fun _ => "/abs/a.txt") (Config.mk [] [])
      ["a.txt", "./a.txt"]).explicit_files.count "/abs/a.txt" = 1 :=
  ⟨(claim_C6 (fun _ => "/abs/a.txt") (Config.mk [] [])).2.1 "*.txt"
      (by decide) (by decide),
   (claim_C6 (fun _ => "/abs/a.txt") (Config.mk [] [])).2.2 "a.txt" "./a.txt"
      (by decide) (by decide) rfl (by decide)⟩

/-- Whether a byte value is a UTF-8 continuation byte (`10xxxxxx`). -/
def isCont (b : Nat) : Bool :=
  decide (0x80 ≤ b ∧ b ≤ 0xBF)

/-- Valid second byte of a three-byte sequence with lead `b1` (the E0
and ED range restrictions, excluding overlong forms and surrogates). -/
def cont3OK (b1 b2 : Nat) : Bool :=
  if b1 = 0xE0 then isCont b2 && decide (0xA0 ≤ b2)
  else if b1 = 0xED then isCont b2 && decide (b2 ≤ 0x9F)
  else isCont b2

/-- Valid second byte of a four-byte sequence with lead `b1` (the F0
and F4 range restrictions, excluding overlongs and values beyond
U+10FFFF). -/
def cont4OK (b1 b2 : Nat) : Bool :=
  if b1 = 0xF0 then isCont b2 && decide (0x90 ≤ b2)
  else if b1 = 0xF4 then isCont b2 && decide (b2 ≤ 0x8F)
  else isCont b2

/-- Code point of a valid two-byte sequence. -/
def char2 (b1 b2 : Nat) : Char :=
  Char.ofNat (b1 % 32 * 64 + b2 % 64)

/-- Code point of a valid three-byte sequence. -/
def char3 (b1 b2 b3 : Nat) : Char :=
  Char.ofNat (b1 % 16 * 4096 + b2 % 64 * 64 + b3 % 64)

/-- Code point of a valid four-byte sequence. -/
def char4 (b1 b2 b3 b4 : Nat) : Char :=
  Char.ofNat (b1 % 8 * 262144 + b2 % 64 * 4096 + b3 % 64 * 64 + b4 % 64)

/-- Models the text layer behind `open(path, "r", encoding="utf-8",
errors="ignore")` at `copier.py` lines 144 and 230: standard UTF-8
decoding in which an undecodable maximal subpart (an invalid byte, or
the valid prefix of a sequence that is truncated or wrongly continued)
is dropped — CPython's `ignore` error handler — instead of raising an
error.  Bytes are byte values, naturals below 256; decoding then
resumes at the first unconsumed byte, exactly as CPython does. -/
def decodeUtf8Ignore : List Nat → List Char
  | [] => []
  | [b1] =>
    if b1 ≤ 0x7F then [Char.ofNat b1] else []
  | [b1, b2] =>
    if b1 ≤ 0x7F then Char.ofNat b1 :: decodeUtf8Ignore [b2]
    else if 0xC2 ≤ b1 ∧ b1 ≤ 0xDF then
      if isCont b2 then [char2 b1 b2] else decodeUtf8Ignore [b2]
    else if 0xE0 ≤ b1 ∧ b1 ≤ 0xEF then
      if cont3OK b1 b2 then [] else decodeUtf8Ignore [b2]
    else if 0xF0 ≤ b1 ∧ b1 ≤ 0xF4 then
      if cont4OK b1 b2 then [] else decodeUtf8Ignore [b2]
    else decodeUtf8Ignore [b2]
  | [b1, b2, b3] =>
    if b1 ≤ 0x7F then Char.ofNat b1 :: decodeUtf8Ignore [b2, b3]
    else if 0xC2 ≤ b1 ∧ b1 ≤ 0xDF then
      if isCont b2 then char2 b1 b2 :: decodeUtf8Ignore [b3]
      else decodeUtf8Ignore [b2, b3]
    else if 0xE0 ≤ b1 ∧ b1 ≤ 0xEF then
      if cont3OK b1 b2 then
        if isCont b3 then [char3 b1 b2 b3] else decodeUtf8Ignore [b3]
      else decodeUtf8Ignore [b2, b3]
    else if 0xF0 ≤ b1 ∧ b1 ≤ 0xF4 then
      if cont4OK b1 b2 then
        if isCont b3 then [] else decodeUtf8Ignore [b3]
      else decodeUtf8Ignore [b2, b3]
    else decodeUtf8Ignore [b2, b3]
  | b1 :: b2 :: b3 :: b4 :: rest =>
    if b1 ≤ 0x7F then Char.ofNat b1 :: decodeUtf8Ignore (b2 :: b3 :: b4 :: rest)
    else if 0xC2 ≤ b1 ∧ b1 ≤ 0xDF then
      if isCont b2 then char2 b1 b2 :: decodeUtf8Ignore (b3 :: b4 :: rest)
      else decodeUtf8Ignore (b2 :: b3 :: b4 :: rest)
    else if 0xE0 ≤ b1 ∧ b1 ≤ 0xEF then
      if cont3OK b1 b2 then
        if isCont b3 then char3 b1 b2 b3 :: decodeUtf8Ignore (b4 :: rest)
        else decodeUtf8Ignore (b3 :: b4 :: rest)
      else decodeUtf8Ignore (b2 :: b3 :: b4 :: rest)
    else if 0xF0 ≤ b1 ∧ b1 ≤ 0xF4 then
      if cont4OK b1 b2 then
        if isCont b3 then
          if isCont b4 then char4 b1 b2 b3 b4 :: decodeUtf8Ignore rest
          else decodeUtf8Ignore (b4 :: rest)
        else decodeUtf8Ignore (b3 :: b4 :: rest)
      else decodeUtf8Ignore (b2 :: b3 :: b4 :: rest)
    else decodeUtf8Ignore (b2 :: b3 :: b4 :: rest)

/-- The text produced by the read of `copier.py` for a file holding the
given raw bytes.  Total: the read never fails on undecodable bytes. -/
def readTextIgnore (bytes : List Nat) : String :=
  ⟨decodeUtf8Ignore bytes⟩

/-- Modelled from the spec: "Read the file as text, replacing
undecodable bytes rather than failing" — the same decoder, except that
each dropped maximal subpart becomes U+FFFD (as `errors="replace"`
would produce) instead of disappearing. -/
def decodeUtf8Replace : List Nat → List Char
  | [] => []
  | [b1] =>
    if b1 ≤ 0x7F then [Char.ofNat b1] else ['�']
  | [b1, b2] =>
    if b1 ≤ 0x7F then Char.ofNat b1 :: decodeUtf8Replace [b2]
    else if 0xC2 ≤ b1 ∧ b1 ≤ 0xDF then
      if isCont b2 then [char2 b1 b2] else '�' :: decodeUtf8Replace [b2]
    else if 0xE0 ≤ b1 ∧ b1 ≤ 0xEF then
      if cont3OK b1 b2 then ['�'] else '�' :: decodeUtf8Replace [b2]
    else if 0xF0 ≤ b1 ∧ b1 ≤ 0xF4 then
      if cont4OK b1 b2 then ['�'] else '�' :: decodeUtf8Replace [b2]
    else '�' :: decodeUtf8Replace [b2]
  | [b1, b2, b3] =>
    if b1 ≤ 0x7F then Char.ofNat b1 :: decodeUtf8Replace [b2, b3]
    else if 0xC2 ≤ b1 ∧ b1 ≤ 0xDF then
      if isCont b2 then char2 b1 b2 :: decodeUtf8Replace [b3]
      else '�' :: decodeUtf8Replace [b2, b3]
    else if 0xE0 ≤ b1 ∧ b1 ≤ 0xEF then
      if cont3OK b1 b2 then
        if isCont b3 then [char3 b1 b2 b3] else '�' :: decodeUtf8Replace [b3]
      else '�' :: decodeUtf8Replace [b2, b3]
    else if 0xF0 ≤ b1 ∧ b1 ≤ 0xF4 then
      if cont4OK b1 b2 then
        if isCont b3 then ['�'] else '�' :: decodeUtf8Replace [b3]
      else '�' :: decodeUtf8Replace [b2, b3]
    else '�' :: decodeUtf8Replace [b2, b3]
  | b1 :: b2 :: b3 :: b4 :: rest =>
    if b1 ≤ 0x7F then Char.ofNat b1 :: decodeUtf8Replace (b2 :: b3 :: b4 :: rest)
    else if 0xC2 ≤ b1 ∧ b1 ≤ 0xDF then
      if isCont b2 then char2 b1 b2 :: decodeUtf8Replace (b3 :: b4 :: rest)
      else '�' :: decodeUtf8Replace (b2 :: b3 :: b4 :: rest)
    else if 0xE0 ≤ b1 ∧ b1 ≤ 0xEF then
      if cont3OK b1 b2 then
        if isCont b3 then char3 b1 b2 b3 :: decodeUtf8Replace (b4 :: rest)
        else '�' :: decodeUtf8Replace (b3 :: b4 :: rest)
      else '�' :: decodeUtf8Replace (b2 :: b3 :: b4 :: rest)
    else if 0xF0 ≤ b1 ∧ b1 ≤ 0xF4 then
      if cont4OK b1 b2 then
        if isCont b3 then
          if isCont b4 then char4 b1 b2 b3 b4 :: decodeUtf8Replace rest
          else '�' :: decodeUtf8Replace (b4 :: rest)
        else '�' :: decodeUtf8Replace (b3 :: b4 :: rest)
      else '�' :: decodeUtf8Replace (b2 :: b3 :: b4 :: rest)
    else '�' :: decodeUtf8Replace (b2 :: b3 :: b4 :: rest)

/-- The replacement-semantics read the spec's words describe. -/
def readTextReplace (bytes : List Nat) : String :=
  ⟨decodeUtf8Replace bytes⟩

/-- C7 counterexample: the code's read (`errors="ignore"`) drops the
undecodable byte `0xFF` between two ASCII letters, yielding `"ab"`,
whereas the claim's "replaced" semantics yields `"a�b"`. -/
theorem claim_C7_counterexample :
    readTextIgnore [0x61, 0xFF, 0x62] = "ab" ∧
    readTextReplace [0x61, 0xFF, 0x62] = "a�b" ∧
    readTextIgnore [0x61, 0xFF, 0x62] ≠ readTextReplace [0x61, 0xFF, 0x62] := by
  refine ⟨by decide, by decide, by decide⟩

theorem decodeUtf8Ignore_ascii :
    ∀ bs : List Nat, (∀ b ∈ bs, b ≤ 0x7F ∨ 0xF8 ≤ b) →
      decodeUtf8Ignore bs =
        (bs.filter (fun b => b ≤ 0x7F)).map (fun b => Char.ofNat b) := by
  intro bs
  induction bs with
  | nil => intro h; simp [decodeUtf8Ignore]
  | cons b bs ih =>
    intro h
    have hb := h b (by simp)
    have hrest : ∀ x ∈ bs, x ≤ 0x7F ∨ 0xF8 ≤ x := fun x hx => h x (by simp [hx])
    have heq := ih hrest
    rcases hb with hb | hb
    · rcases bs with _ | ⟨b2, _ | ⟨b3, _ | ⟨b4, rest⟩⟩⟩
      · rw [decodeUtf8Ignore.eq_2, if_pos hb]
        simp [List.filter_cons, hb]
      · rw [decodeUtf8Ignore.eq_3, if_pos hb, heq]
        simp [List.filter_cons, hb]
      · rw [decodeUtf8Ignore.eq_4, if_pos hb, heq]
        simp [List.filter_cons, hb]
      · rw [decodeUtf8Ignore.eq_5, if_pos hb, heq]
        simp [List.filter_cons, hb]
    · have h1 : ¬ b ≤ 0x7F := by omega
      have h2 : ¬ (0xC2 ≤ b ∧ b ≤ 0xDF) := by omega
      have h3 : ¬ (0xE0 ≤ b ∧ b ≤ 0xEF) := by omega
      have h4 : ¬ (0xF0 ≤ b ∧ b ≤ 0xF4) := by omega
      rcases bs with _ | ⟨b2, _ | ⟨b3, _ | ⟨b4, rest⟩⟩⟩
      · rw [decodeUtf8Ignore.eq_2, if_neg h1]
        simp [List.filter_cons, h1]
      · rw [decodeUtf8Ignore.eq_3, if_neg h1, if_neg h2, if_neg h3, if_neg h4, heq]
        simp [List.filter_cons, h1]
      · rw [decodeUtf8Ignore.eq_4, if_neg h1, if_neg h2, if_neg h3, if_neg h4, heq]
        simp [List.filter_cons, h1]
      · rw [decodeUtf8Ignore.eq_5, if_neg h1, if_neg h2, if_neg h3, if_neg h4, heq]
        simp [List.filter_cons, h1]

/-- C7 (amended): the read never fails on undecodable bytes — they are
dropped, not replaced: on ASCII bytes mixed with bytes that can never
occur in UTF-8 (0xF8 and above), the decoded text is exactly the ASCII
subsequence, with every undecodable byte silently removed. -/
theorem claim_C7 (bs : List Nat) (h : ∀ b ∈ bs, b ≤ 0x7F ∨ 0xF8 ≤ b) :
    readTextIgnore bs =
      ⟨(bs.filter (fun b => b ≤ 0x7F)).map (fun b => Char.ofNat b)⟩ := by
  unfold readTextIgnore
  rw [decodeUtf8Ignore_ascii bs h]

theorem claim_C7_witness :
    readTextIgnore [0x68, 0xFF, 0x69, 0xFE] =
      ⟨(([0x68, 0xFF, 0x69, 0xFE].filter (fun b => b ≤ 0x7F)).map
        (fun b => Char.ofNat b))⟩ :=
  claim_C7 [0x68, 0xFF, 0x69, 0xFE] (by decide)
